import Mathlib

/-!
# Verification of the pulse3D peak-detection and twitch-indexing engine

This file is a shallow embedding, in Lean 4, of the peak/valley detection and
twitch-indexing code of the pulse3D repository
(`src/pulse3D/peak_detection.py`, `src/pulse3D/nb_peak_detection.py`,
`src/pulse3D/constants.py`), together with theorems settling a list of claims
about that code.

Embedding conventions:

* Python floats are modelled as rationals (`ℚ`); all the claims under study are
  about control flow and order comparisons, not floating-point rounding.
* NumPy integer arrays are modelled as `List ℕ` (sample indices are
  non-negative); NumPy float arrays as `List ℚ`.  NumPy indexing `a[i]` is
  modelled as `List.getD a i 0`; at every reachable access site the index is in
  range, so the default is never consulted.
* `scipy.signal.find_peaks` is an external library routine (an external
  collaborator per the specification); the parts of `peak_detector` that belong
  to the repository are parameterised over it (`FindPeaksFn`), receiving the
  exact argument expressions the Python call sites pass (scaled signal, width,
  distance, prominence) and returning the peak indices plus the `left_ips` /
  `right_ips` width properties used by the repair loop.
* Python `raise` of the repository's exception classes is modelled with
  `Except` over an explicit error datatype carrying the same payloads
  (formatted message for `TooFewPeaksDetectedError`, index pairs for
  `TwoPeaksInARowError` / `TwoValleysInARowError`).
* The `while` loops of `find_twitch_indices` and of `peak_detector`'s valley
  repair are written with an explicit fuel argument so that the definitions are
  structurally recursive (hence executable on concrete inputs by the kernel).
  Each loop iteration strictly decreases the natural measure of the loop
  (`len(peaks) - peak_idx + (len(valleys) - valley_idx)`, respectively
  `len(valley_indices) - i`), so any fuel at least the measure at entry makes
  the fuel bound unreachable; the call sites pass such a bound, and every
  lemma about the loops carries the corresponding fuel hypothesis.
-/

/-! ## Constants (`src/pulse3D/constants.py`) -/

/-- `MICRO_TO_BASE_CONVERSION = int(1e6)` (constants.py line 121). -/
def MICRO_TO_BASE_CONVERSION : ℚ := 1000000

/-- `MIN_NUMBER_PEAKS = 3` (constants.py line 220). -/
def MIN_NUMBER_PEAKS : ℕ := 3

/-- `MIN_NUMBER_VALLEYS = 3` (constants.py line 221). -/
def MIN_NUMBER_VALLEYS : ℕ := 3

/-! ## Errors raised by the peak-detection code (`src/pulse3D/exceptions.py`) -/

/-- The exceptions raised by the embedded code, with the payloads the Python
code passes to their constructors: `TooFewPeaksDetectedError` receives a
formatted message string, `TwoPeaksInARowError` and `TwoValleysInARowError`
receive the pair of offending indices, `InvalidValleySearchDurationError`
receives nothing. -/
inductive PeakDetectionErr where
  | tooFewPeaksDetected (msg : String)
  | twoPeaksInARow (pair : ℕ × ℕ)
  | twoValleysInARow (pair : ℕ × ℕ)
  | invalidValleySearchDuration
deriving DecidableEq, Repr

instance {ε α : Type} [DecidableEq ε] [DecidableEq α] : DecidableEq (Except ε α)
  | .error a, .error b =>
    decidable_of_iff (a = b) ⟨fun h => by rw [h], fun h => by cases h; rfl⟩
  | .error _, .ok _ => .isFalse (by intro h; cases h)
  | .ok _, .error _ => .isFalse (by intro h; cases h)
  | .ok a, .ok b =>
    decidable_of_iff (a = b) ⟨fun h => by rw [h], fun h => by cases h; rfl⟩

/-- The f-string of `too_few_peaks_or_valleys` for too few peaks
(peak_detection.py line 154), interpolating the required minimum and the
observed count. -/
def too_few_peaks_msg (required found : ℕ) : String :=
  "A minimum of " ++ toString required ++
    " peaks is required to extract twitch metrics, however only " ++
    toString found ++ " peak(s) were detected."

/-- The f-string of `too_few_peaks_or_valleys` for too few valleys
(peak_detection.py line 158), interpolating the required minimum and the
observed count. -/
def too_few_valleys_msg (required found : ℕ) : String :=
  "A minimum of " ++ toString required ++
    " valleys is required to extract twitch metrics, however only " ++
    toString found ++ " valley(s) were detected."

/-! ## `too_few_peaks_or_valleys` (peak_detection.py lines 132-159) -/

/-- `too_few_peaks_or_valleys(peak_indices, valley_indices, min_number_peaks,
min_number_valleys)`: raises `TooFewPeaksDetectedError` if there are fewer than
`min_number_peaks` peaks, then if there are fewer than `min_number_valleys`
valleys; otherwise returns `None`. -/
def too_few_peaks_or_valleys (peak_indices valley_indices : List ℕ)
    (min_number_peaks min_number_valleys : ℕ) : Except PeakDetectionErr Unit :=
  if peak_indices.length < min_number_peaks then
    .error (.tooFewPeaksDetected (too_few_peaks_msg min_number_peaks peak_indices.length))
  else if valley_indices.length < min_number_valleys then
    .error (.tooFewPeaksDetected (too_few_valleys_msg min_number_valleys valley_indices.length))
  else .ok ()

/-! ## `find_twitch_indices` (peak_detection.py lines 162-219) -/

/-- `_find_start_indices(starts_with_peak)` (peak_detection.py lines 305-322):
both cursors start at 0, then the cursor of the kind that comes first is
advanced by one. -/
def find_start_indices (starts_with_peak : Bool) : ℕ × ℕ :=
  if starts_with_peak then (1, 0) else (0, 1)

/-- The `while peak_idx < len(peak_indices) and valley_idx < len(valley_indices)`
loop of `find_twitch_indices` (peak_detection.py lines 190-199).  State:
cursors `peak_idx`/`valley_idx` and the flag `prev_feature_is_peak`.  When the
previous feature was a peak, the next feature must be a valley not exceeding the
upcoming peak, otherwise `TwoPeaksInARowError` is raised naming
`(peak_indices[peak_idx-1], peak_indices[peak_idx])`; symmetrically for
valleys.  `fuel` is an upper bound on the loop measure
`(len(peaks) - peak_idx) + (len(valleys) - valley_idx)`, which each iteration
decreases by exactly one; when the fuel is at least the measure, the fuel-zero
branch coincides with the loop condition being false. -/
def scanLoop (peak_indices valley_indices : List ℕ) :
    ℕ → ℕ → ℕ → Bool → Except PeakDetectionErr (ℕ × ℕ)
  | 0, peak_idx, valley_idx, _ => .ok (peak_idx, valley_idx)
  | fuel + 1, peak_idx, valley_idx, prev_feature_is_peak =>
    if peak_idx < peak_indices.length ∧ valley_idx < valley_indices.length then
      if prev_feature_is_peak then
        if valley_indices.getD valley_idx 0 > peak_indices.getD peak_idx 0 then
          .error (.twoPeaksInARow
            (peak_indices.getD (peak_idx - 1) 0, peak_indices.getD peak_idx 0))
        else
          scanLoop peak_indices valley_indices fuel peak_idx (valley_idx + 1)
            (!prev_feature_is_peak)
      else
        if valley_indices.getD valley_idx 0 < peak_indices.getD peak_idx 0 then
          .error (.twoValleysInARow
            (valley_indices.getD (valley_idx - 1) 0, valley_indices.getD valley_idx 0))
        else
          scanLoop peak_indices valley_indices fuel (peak_idx + 1) valley_idx
            (!prev_feature_is_peak)
    else .ok (peak_idx, valley_idx)

/-- One twitch record of `find_twitch_indices` (peak_detection.py lines
212-217): the inner dict maps the four UUID keys to `Optional[int]` values.  In
the Python code only the prior-peak entry is ever `None`; the `Option` type
mirrors the declared value type `Optional[int]`. -/
structure TwitchRec where
  priorPeak : Option ℕ
  priorValley : Option ℕ
  subsequentPeak : Option ℕ
  subsequentValley : Option ℕ
deriving DecidableEq, Repr

/-- The twitch-compilation `for` loop of `find_twitch_indices`
(peak_detection.py lines 206-217), run after the alternation checks passed.
For each position `itr_idx` of `peak_indices` except the last, and skipping
position 0 when the sequence starts with a peak, it emits
`peak_indices[itr_idx]` mapped to the record of its four neighbours.  The
Python dict is modelled as the association list in emission order (the loop
emits strictly increasing positions, so on the reachable inputs the keys are
distinct). -/
def twitchRecAt (starts_with_peak : Bool) (peak_indices valley_indices : List ℕ)
    (itr_idx : ℕ) : TwitchRec where
  priorPeak := if itr_idx = 0 then none else some (peak_indices.getD (itr_idx - 1) 0)
  priorValley :=
    some (valley_indices.getD (if starts_with_peak then itr_idx - 1 else itr_idx) 0)
  subsequentPeak := some (peak_indices.getD (itr_idx + 1) 0)
  subsequentValley :=
    some (valley_indices.getD (if starts_with_peak then itr_idx else itr_idx + 1) 0)

/-- The emission of the compilation loop: `peak_indices[itr_idx]` mapped to its
record, skipped for the last position and for position 0 when the sequence
starts with a peak. -/
def buildTwitches (starts_with_peak : Bool) (peak_indices valley_indices : List ℕ) :
    List (ℕ × TwitchRec) :=
  (List.range peak_indices.length).filterMap (fun itr_idx =>
    if itr_idx < peak_indices.length - 1 then
      if itr_idx = 0 ∧ starts_with_peak then none
      else
        some (peak_indices.getD itr_idx 0,
          twitchRecAt starts_with_peak peak_indices valley_indices itr_idx)
    else none)

/-- `find_twitch_indices(peak_and_valley_indices)` (peak_detection.py lines
162-219): first the minimum-count check, then the back-to-back feature scan
(with its two post-loop checks), then the twitch map compilation. -/
def find_twitch_indices (peak_indices valley_indices : List ℕ) :
    Except PeakDetectionErr (List (ℕ × TwitchRec)) :=
  match too_few_peaks_or_valleys peak_indices valley_indices
      MIN_NUMBER_PEAKS MIN_NUMBER_VALLEYS with
  | .error e => .error e
  | .ok _ =>
    let starts_with_peak := decide (peak_indices.getD 0 0 < valley_indices.getD 0 0)
    match scanLoop peak_indices valley_indices
        (peak_indices.length + valley_indices.length)
        (find_start_indices starts_with_peak).1 (find_start_indices starts_with_peak).2
        starts_with_peak with
    | .error e => .error e
    | .ok (peak_idx, valley_idx) =>
      if peak_idx < peak_indices.length - 1 then
        .error (.twoPeaksInARow
          (peak_indices.getD peak_idx 0, peak_indices.getD (peak_idx + 1) 0))
      else if valley_idx < valley_indices.length - 1 then
        .error (.twoValleysInARow
          (valley_indices.getD valley_idx 0, valley_indices.getD (valley_idx + 1) 0))
      else .ok (buildTwitches starts_with_peak peak_indices valley_indices)

/-! ### Claim C3: minimum count enforcement -/

/-- **C3.** For every pair of peak/valley index arrays the check invoked by
`find_twitch_indices` (with the default minima `MIN_NUMBER_PEAKS =
MIN_NUMBER_VALLEYS = 3`) raises `TooFewPeaksDetectedError` whenever fewer than
3 peaks or fewer than 3 valleys are present, with a message interpolating both
the required minimum (3) and the observed count; and raises nothing when both
counts are at least 3. -/
theorem too_few_peaks_or_valleys_spec (peak_indices valley_indices : List ℕ) :
    (peak_indices.length < 3 →
      too_few_peaks_or_valleys peak_indices valley_indices MIN_NUMBER_PEAKS MIN_NUMBER_VALLEYS
        = .error (.tooFewPeaksDetected (too_few_peaks_msg 3 peak_indices.length))) ∧
    (3 ≤ peak_indices.length → valley_indices.length < 3 →
      too_few_peaks_or_valleys peak_indices valley_indices MIN_NUMBER_PEAKS MIN_NUMBER_VALLEYS
        = .error (.tooFewPeaksDetected (too_few_valleys_msg 3 valley_indices.length))) ∧
    (3 ≤ peak_indices.length → 3 ≤ valley_indices.length →
      too_few_peaks_or_valleys peak_indices valley_indices MIN_NUMBER_PEAKS MIN_NUMBER_VALLEYS
        = .ok ()) := by
  refine ⟨fun hp => ?_, fun hp hv => ?_, fun hp hv => ?_⟩ <;>
    simp only [too_few_peaks_or_valleys, MIN_NUMBER_PEAKS, MIN_NUMBER_VALLEYS]
  · rw [if_pos hp]
  · rw [if_neg (by omega), if_pos hv]
  · rw [if_neg (by omega), if_neg (by omega)]

/-- Witness for C3: at `peak_indices = [4]`, `valley_indices = [1, 2, 3]` the
check raises `TooFewPeaksDetectedError` with the message naming the minimum 3
and the observed count 1; at three peaks and three valleys it raises nothing. -/
theorem too_few_peaks_or_valleys_spec_witness :
    too_few_peaks_or_valleys [4] [1, 2, 3] MIN_NUMBER_PEAKS MIN_NUMBER_VALLEYS
        = .error (.tooFewPeaksDetected (too_few_peaks_msg 3 1)) ∧
    too_few_peaks_or_valleys [4, 8, 12] [1, 2, 3] MIN_NUMBER_PEAKS MIN_NUMBER_VALLEYS
        = .ok () :=
  ⟨(too_few_peaks_or_valleys_spec [4] [1, 2, 3]).1 (by decide),
   (too_few_peaks_or_valleys_spec [4, 8, 12] [1, 2, 3]).2.2 (by decide) (by decide)⟩

/-! ### Claim C9: two-peaks-in-a-row detection -/

/-- **C9.** `find_twitch_indices` at `peak_indices = [0, 1, 4, 8, 12]`,
`valley_indices = [2, 6, 10]` raises `TwoPeaksInARowError` carrying exactly the
offending index pair `(0, 1)`. -/
theorem find_twitch_indices_two_peaks_in_a_row :
    find_twitch_indices [0, 1, 4, 8, 12] [2, 6, 10]
      = .error (.twoPeaksInARow (0, 1)) := by
  decide

/-! ## `noise_based_peak_finding` (nb_peak_detection.py), valley-search stage

The full `noise_based_peak_finding` pipeline calls `scipy.optimize.curve_fit`
and `scipy.signal.find_peaks` (external library routines) to find and filter
peaks; the claims under study concern the valley-search stage (lines 137-204),
which is pure list manipulation and is embedded here: the pruning of peaks too
close to the start of the recording, and the selection of a valley index inside
one backward search segment. -/

/-- Lines 137-143 of `noise_based_peak_finding`: the `while` loop
`while len(peaks) != 0 and peaks[0] - valley_search_window_num_samples < 0:
peaks = np.delete(peaks, 0)` deletes peaks from the front while the first one
is closer than `window` samples to the start (the loop always tests the current
first element, so it is exactly `dropWhile`); then
`if len(peaks) == 0: raise InvalidValleySearchDurationError()`. -/
def prune_peaks_for_valley_search (window : ℕ) (peaks : List ℕ) :
    Except PeakDetectionErr (List ℕ) :=
  let remaining := peaks.dropWhile (fun p => decide (p < window))
  if remaining.isEmpty then .error .invalidValleySearchDuration
  else .ok remaining

/-- `np.where(np.diff(segment) > 0)[0]` (line 167): the positions `i` of the
segment at which the waveform strictly rises from sample `i` to sample `i+1`. -/
def risingPositions (segment : List ℚ) : List ℕ :=
  (List.range (segment.length - 1)).filter
    (fun i => decide (0 < segment.getD (i + 1) 0 - segment.getD i 0))

/-- Helper for `splitGaps`: walks the remaining positions carrying the previous
position and the accumulated current group (reversed). -/
def splitGapsAux (gap : ℚ) : List ℕ → ℕ → List ℕ → List (List ℕ)
  | [], _, acc => [acc.reverse]
  | x :: xs, prev, acc =>
    if (1 : ℚ) + gap < (x : ℚ) - (prev : ℚ) then
      acc.reverse :: splitGapsAux gap xs x [x]
    else splitGapsAux gap xs x (x :: acc)

/-- `np.split(upslope, np.where(np.diff(upslope) > (1 + allowance))[0] + 1)`
(lines 168-177): groups the rising positions, starting a new group whenever the
step from the previous position exceeds `1 + allowance` (i.e. the non-rising
gap exceeds the noise allowance).  `np.split` of an empty array with no split
points yields one empty group. -/
def splitGaps (gap : ℚ) : List ℕ → List (List ℕ)
  | [] => [[]]
  | x :: xs => splitGapsAux gap xs x [x]

/-- Lines 167-177: the qualifying upslopes of one valley-search segment — the
gap-split groups of rising positions that last at least `upslope_num_samples`
(`if len(i) >= upslope_num_samples`, an `int ≥ float` comparison). -/
def qualifyingUpslopes (segment : List ℚ)
    (upslope_num_samples upslope_noise_allowance_num_samples : ℚ) : List (List ℕ) :=
  (splitGaps upslope_noise_allowance_num_samples (risingPositions segment)).filter
    (fun g => decide (upslope_num_samples ≤ (g.length : ℚ)))

/-- Helper for `argminFirst`: fold carrying current position, best position and
best value; a strict `<` update keeps the first occurrence of the minimum. -/
def argminAux : List ℚ → ℕ → ℕ → ℚ → ℕ
  | [], _, best, _ => best
  | x :: xs, cur, best, bestVal =>
    if x < bestVal then argminAux xs (cur + 1) cur x
    else argminAux xs (cur + 1) best bestVal

/-- `np.argmin(valley)` (line 183): the first position of the minimum value. -/
def argminFirst : List ℚ → ℕ
  | [] => 0
  | x :: xs => argminAux xs 1 0 x

/-- Python `max([len(length) for length in upslope])` (line 194) over a
non-empty list, modelled as a fold from 0 (all lengths are non-negative). -/
def listMaxNat (l : List ℕ) : ℕ := l.foldl max 0

/-- Lines 179-198 of `noise_based_peak_finding`, for one valley-search
segment: if no qualifying upslope exists, `np.argmin` of the segment; if
exactly one exists, its first position; otherwise the first position of the
first group among those of maximal length
(`[slope[0] for slope in upslope if len(slope) == longest_upslope][0]`). -/
def nb_select_valley_index (segment : List ℚ)
    (upslope_num_samples upslope_noise_allowance_num_samples : ℚ) : ℕ :=
  let ups := qualifyingUpslopes segment upslope_num_samples
    upslope_noise_allowance_num_samples
  if ups.length = 0 then argminFirst segment
  else if ups.length = 1 then (ups.getD 0 []).getD 0 0
  else
    let longest := listMaxNat (ups.map List.length)
    ((ups.filter (fun g => g.length = longest)).getD 0 []).getD 0 0

/-- Modelled from the spec: the valley selection rule as stated by the
specification and by the code's own comment at nb_peak_detection.py lines
192-193 ("if multiple equal length slopes are identified the latest upslope is
used") — identical to `nb_select_valley_index` except that among several
equal-longest qualifying upslopes the *latest-starting* one is chosen. -/
def nb_select_valley_index_latest (segment : List ℚ)
    (upslope_num_samples upslope_noise_allowance_num_samples : ℚ) : ℕ :=
  let ups := qualifyingUpslopes segment upslope_num_samples
    upslope_noise_allowance_num_samples
  if ups.length = 0 then argminFirst segment
  else if ups.length = 1 then (ups.getD 0 []).getD 0 0
  else
    let longest := listMaxNat (ups.map List.length)
    ((ups.filter (fun g => g.length = longest)).getLastD []).getD 0 0

/-! ### Claim C8: valley selection in `noise_based_peak_finding` (code bug) -/

/-- **C8** (code-bug evidence).  On the valley-search segment
`[0, 1, 2, 1, 1, 0, 1, 2]` with minimum upslope length 2 samples and noise
allowance 0, there are exactly two qualifying upslopes, `[0, 1]` and `[5, 6]`,
of equal (maximal) length; the code selects the *earliest*-starting one (valley
index 0), while the rule stated by the claim — and by the code's own comment —
selects the *latest*-starting one (valley index 5). -/
theorem nb_select_valley_index_tie_break_divergence :
    qualifyingUpslopes [0, 1, 2, 1, 1, 0, 1, 2] 2 0 = [[0, 1], [5, 6]] ∧
    nb_select_valley_index [0, 1, 2, 1, 1, 0, 1, 2] 2 0 = 0 ∧
    nb_select_valley_index_latest [0, 1, 2, 1, 1, 0, 1, 2] 2 0 = 5 := by
  refine ⟨?_, ?_, ?_⟩ <;>
    norm_num [nb_select_valley_index, nb_select_valley_index_latest, qualifyingUpslopes,
      risingPositions, List.range_succ, List.filter_append, List.getD, splitGaps, splitGapsAux,
      listMaxNat]

/-! ### Claim C10: pruning before the valley search -/

/-- **C10.**  For a sorted peak list (as produced by `find_peaks`), if every
peak lies closer than `window = int(valley_search_duration * sample_freq)`
samples to the start of the recording, the pruning stage raises
`InvalidValleySearchDurationError` rather than returning an empty result; and
whenever it returns a peak list, that list is non-empty and every peak in it is
at least `window` samples from the start. -/
theorem prune_peaks_for_valley_search_spec (window : ℕ) (peaks : List ℕ)
    (hsorted : List.Sorted (· ≤ ·) peaks) :
    ((∀ p ∈ peaks, p < window) →
      prune_peaks_for_valley_search window peaks = .error .invalidValleySearchDuration) ∧
    (∀ remaining, prune_peaks_for_valley_search window peaks = .ok remaining →
      remaining ≠ [] ∧ ∀ p ∈ remaining, window ≤ p) := by
  induction peaks with
  | nil =>
    refine ⟨fun _ => rfl, fun remaining h => ?_⟩
    simp [prune_peaks_for_valley_search] at h
  | cons q qs ih =>
    have hsorted' : List.Sorted (· ≤ ·) qs := hsorted.of_cons
    by_cases hq : q < window
    · have hdw : (q :: qs).dropWhile (fun p => decide (p < window))
          = qs.dropWhile (fun p => decide (p < window)) := by
        simp [List.dropWhile, hq]
      constructor
      · intro hall
        have := (ih hsorted').1 (fun p hp => hall p (List.mem_cons_of_mem q hp))
        simpa [prune_peaks_for_valley_search, hdw] using
          by simpa [prune_peaks_for_valley_search] using this
      · intro remaining h
        have h' : prune_peaks_for_valley_search window qs = .ok remaining := by
          simpa [prune_peaks_for_valley_search, hdw] using h
        exact (ih hsorted').2 remaining h'
    · have hdw : (q :: qs).dropWhile (fun p => decide (p < window)) = q :: qs := by
        simp [List.dropWhile, hq]
      constructor
      · intro hall
        exact absurd (hall q (List.mem_cons_self q qs)) hq
      · intro remaining h
        have hrem : remaining = q :: qs := by
          simp only [prune_peaks_for_valley_search, hdw] at h
          simp at h
          exact h.symm
        subst hrem
        refine ⟨by simp, fun p hp => ?_⟩
        rcases List.mem_cons.mp hp with rfl | hp'
        · omega
        · have : q ≤ p := (List.sorted_cons.mp hsorted).1 p hp'
          omega

/-- Witness for C10: at `window = 3`, `peaks = [1, 2, 5, 7]` the pruning
returns `[5, 7]`, which is non-empty and whose members are all at least 3
samples from the start. -/
theorem prune_peaks_for_valley_search_spec_witness :
    [5, 7] ≠ ([] : List ℕ) ∧ ∀ p ∈ [5, 7], 3 ≤ p :=
  (prune_peaks_for_valley_search_spec 3 [1, 2, 5, 7] (by decide)).2 [5, 7] (by decide)

/-! ## The merged peak/valley sequence

For the alternation claims, an entry of the merged sequence is a pair of the
sample index and its kind (`true` = peak, `false` = valley). -/

/-- Order (by sample index) on merged entries. -/
abbrev idxLe (a c : ℕ × Bool) : Prop := a.1 ≤ c.1

/-- Strict order (by sample index) on merged entries. -/
abbrev idxLt (a c : ℕ × Bool) : Prop := a.1 < c.1

instance : DecidableRel idxLe := fun a c => inferInstanceAs (Decidable (a.1 ≤ c.1))

instance : IsTotal (ℕ × Bool) idxLe := ⟨fun a c => Nat.le_total a.1 c.1⟩

instance : IsTrans (ℕ × Bool) idxLe := ⟨fun _ _ _ => Nat.le_trans⟩

instance : IsTrans (ℕ × Bool) idxLt := ⟨fun _ _ _ => Nat.lt_trans⟩

instance : IsAntisymm (ℕ × Bool) idxLt :=
  ⟨fun _ _ h1 h2 => absurd h1 (Nat.lt_asymm h2)⟩

/-- Merging the peak and valley index sequences (tagged with their kinds) and
sorting the result by sample index. -/
def mergedSorted (peak_indices valley_indices : List ℕ) : List (ℕ × Bool) :=
  List.insertionSort idxLe
    (peak_indices.map (fun x => (x, true)) ++ valley_indices.map (fun x => (x, false)))

/-- The alternating interleaving of the remaining peaks and valleys, starting
with a peak when `nextIsPeak` is `true`; once one side is exhausted the rest of
the other side is appended. -/
def ivl : Bool → List ℕ → List ℕ → List (ℕ × Bool)
  | true, [], valleys => valleys.map (fun x => (x, false))
  | true, x :: peaks, valleys => (x, true) :: ivl false peaks valleys
  | false, peaks, [] => peaks.map (fun x => (x, true))
  | false, peaks, y :: valleys => (y, false) :: ivl true peaks valleys
termination_by _ peaks valleys => peaks.length + valleys.length

/-- The interleaving is a permutation of the tagged concatenation. -/
theorem ivl_perm (b : Bool) (peaks valleys : List ℕ) :
    (ivl b peaks valleys).Perm
      (peaks.map (fun x => (x, true)) ++ valleys.map (fun x => (x, false))) := by
  induction b, peaks, valleys using ivl.induct with
  | case1 v => simp [ivl]
  | case2 x p v ih => simpa [ivl] using ih.cons (x, true)
  | case3 p => simp [ivl]
  | case4 p y v ih =>
    simp only [ivl, List.map_cons]
    exact (ih.cons (y, false)).trans List.perm_middle.symm

/-- The length of the interleaving. -/
theorem ivl_length (b : Bool) (peaks valleys : List ℕ) :
    (ivl b peaks valleys).length = peaks.length + valleys.length :=
  (ivl_perm b peaks valleys).length_eq.trans (by simp)

/-- Any list of length at most one is vacuously a chain. -/
theorem chain'_of_length_le_one {α : Type} {R : α → α → Prop} :
    ∀ (l : List α), l.length ≤ 1 → List.Chain' R l
  | [], _ => List.chain'_nil
  | [a], _ => List.chain'_singleton a

/-- Kinds strictly alternate along the interleaving provided the two sides are
balanced for the starting kind (equal lengths, or the starting side one
longer). -/
theorem ivl_kinds_chain :
    ∀ (b : Bool) (peaks valleys : List ℕ),
      (b = true → valleys.length ≤ peaks.length ∧ peaks.length ≤ valleys.length + 1) →
      (b = false → peaks.length ≤ valleys.length ∧ valleys.length ≤ peaks.length + 1) →
      List.Chain' (fun a c => a.2 ≠ c.2) (ivl b peaks valleys) := by
  intro b peaks valleys
  induction b, peaks, valleys using ivl.induct with
  | case1 v =>
    intro ht _
    have hv : v.length = 0 := by
      have := (ht rfl).1
      simpa using this
    rw [List.length_eq_zero] at hv
    subst hv
    simp [ivl]
  | case2 x p v ih =>
    intro ht _
    have hsz := ht rfl
    simp only [List.length_cons] at hsz
    cases v with
    | nil =>
      have hp : p.length = 0 := by simp only [List.length_nil] at hsz; omega
      rw [List.length_eq_zero] at hp
      subst hp
      simp [ivl]
    | cons y v' =>
      simp only [List.length_cons] at hsz
      rw [ivl, List.chain'_cons']
      constructor
      · intro c hc
        rw [ivl] at hc
        simp only [List.head?_cons, Option.mem_def, Option.some.injEq] at hc
        subst hc
        simp
      · exact ih (fun h => by cases h) (fun _ => by simp only [List.length_cons]; omega)
  | case3 p =>
    intro _ hf
    have hp : p.length = 0 := by
      have := (hf rfl).1
      simpa using this
    rw [List.length_eq_zero] at hp
    subst hp
    simp [ivl]
  | case4 p y v ih =>
    intro _ hf
    have hsz := hf rfl
    simp only [List.length_cons] at hsz
    cases p with
    | nil =>
      have hv : v.length = 0 := by simp only [List.length_nil] at hsz; omega
      rw [List.length_eq_zero] at hv
      subst hv
      simp [ivl]
    | cons x p' =>
      simp only [List.length_cons] at hsz
      rw [ivl, List.chain'_cons']
      constructor
      · intro c hc
        rw [ivl] at hc
        simp only [List.head?_cons, Option.mem_def, Option.some.injEq] at hc
        subst hc
        simp
      · exact ih (fun _ => by simp only [List.length_cons]; omega) (fun h => by cases h)

/-! ### Characterisation of successful runs of the back-to-back scan -/

/-- Exit facts of the scan.  When `scanLoop` returns `(pf, vf)` successfully
from state `(peak_idx, valley_idx, prev)` (with enough fuel), the final cursors
are within bounds, the loop condition fails at them, and — unless the loop
exited immediately — the cursor advances are balanced according to the kind of
the last-consumed feature, with the side that did not force the exit strictly
inside its bounds. -/
theorem scanLoop_ok_facts (p v : List ℕ) :
    ∀ (fuel peak_idx valley_idx : ℕ) (prev : Bool) (pf vf : ℕ),
      scanLoop p v fuel peak_idx valley_idx prev = .ok (pf, vf) →
      p.length - peak_idx + (v.length - valley_idx) ≤ fuel →
      peak_idx ≤ p.length → valley_idx ≤ v.length →
      pf ≤ p.length ∧ vf ≤ v.length ∧ ¬(pf < p.length ∧ vf < v.length) ∧
        ((pf = peak_idx ∧ vf = valley_idx) ∨
          (if prev then
            (vf + peak_idx = valley_idx + pf ∧ pf = p.length ∧ vf < v.length) ∨
              (vf + peak_idx = valley_idx + pf + 1 ∧ vf = v.length ∧ pf < p.length)
          else
            (pf + valley_idx = peak_idx + vf ∧ vf = v.length ∧ pf < p.length) ∨
              (pf + valley_idx = peak_idx + vf + 1 ∧ pf = p.length ∧ vf < v.length))) := by
  intro fuel
  induction fuel with
  | zero =>
    intro peak_idx valley_idx prev pf vf h hfuel hpi hvi
    simp only [scanLoop, Except.ok.injEq, Prod.mk.injEq] at h
    obtain ⟨rfl, rfl⟩ := h
    cases prev <;> simp <;> omega
  | succ fuel ih =>
    intro peak_idx valley_idx prev pf vf h hfuel hpi hvi
    rw [scanLoop] at h
    by_cases hcond : peak_idx < p.length ∧ valley_idx < v.length
    · rw [if_pos hcond] at h
      cases prev with
      | true =>
        rw [if_pos rfl] at h
        by_cases hchk : p.getD peak_idx 0 < v.getD valley_idx 0
        · rw [if_pos hchk] at h
          cases h
        · rw [if_neg hchk] at h
          have hres := ih peak_idx (valley_idx + 1) false pf vf h
            (by omega) hpi (by omega)
          simp only [if_true, if_false, Bool.false_eq_true] at hres ⊢
          omega
      | false =>
        rw [if_neg (by simp)] at h
        by_cases hchk : v.getD valley_idx 0 < p.getD peak_idx 0
        · rw [if_pos hchk] at h
          cases h
        · rw [if_neg hchk] at h
          have hres := ih (peak_idx + 1) valley_idx true pf vf h
            (by omega) (by omega) hvi
          simp only [if_true, if_false, Bool.false_eq_true] at hres ⊢
          omega
    · rw [if_neg hcond] at h
      simp only [Except.ok.injEq, Prod.mk.injEq] at h
      obtain ⟨rfl, rfl⟩ := h
      cases prev <;> simp <;> omega

/-- Order chain of the scan.  When `scanLoop` succeeds from
`(peak_idx, valley_idx, prev)` (with enough fuel) and the post-loop checks of
`find_twitch_indices` pass (`p.length ≤ pf + 1`, `v.length ≤ vf + 1`), the
interleaving of the remaining features — starting with a valley when the
previous feature was a peak — is ordered by sample index. -/
theorem scanLoop_ok_chain (p v : List ℕ) :
    ∀ (fuel peak_idx valley_idx : ℕ) (prev : Bool) (pf vf : ℕ),
      scanLoop p v fuel peak_idx valley_idx prev = .ok (pf, vf) →
      p.length - peak_idx + (v.length - valley_idx) ≤ fuel →
      p.length ≤ pf + 1 → v.length ≤ vf + 1 →
      List.Chain' idxLe (ivl (!prev) (p.drop peak_idx) (v.drop valley_idx)) := by
  intro fuel
  induction fuel with
  | zero =>
    intro peak_idx valley_idx prev pf vf h hfuel _ _
    simp only [scanLoop, Except.ok.injEq, Prod.mk.injEq] at h
    have hp : p.drop peak_idx = [] := List.drop_eq_nil_of_le (by omega)
    have hv : v.drop valley_idx = [] := List.drop_eq_nil_of_le (by omega)
    rw [hp, hv]
    cases prev <;> simp [ivl]
  | succ fuel ih =>
    intro peak_idx valley_idx prev pf vf h hfuel hpost1 hpost2
    rw [scanLoop] at h
    by_cases hcond : peak_idx < p.length ∧ valley_idx < v.length
    · rw [if_pos hcond] at h
      cases prev with
      | true =>
        rw [if_pos rfl] at h
        by_cases hchk : p.getD peak_idx 0 < v.getD valley_idx 0
        · rw [if_pos hchk] at h; cases h
        · rw [if_neg hchk] at h
          have htail := ih peak_idx (valley_idx + 1) false pf vf h (by omega) hpost1 hpost2
          rw [List.drop_eq_getElem_cons hcond.2]
          rw [show (!true) = false from rfl, ivl, List.chain'_cons']
          refine ⟨?_, by simpa using htail⟩
          intro c hc
          rw [List.drop_eq_getElem_cons hcond.1, ivl] at hc
          simp only [List.head?_cons, Option.mem_def, Option.some.injEq] at hc
          subst hc
          show v[valley_idx] ≤ p[peak_idx]
          rw [← List.getD_eq_getElem v 0 hcond.2, ← List.getD_eq_getElem p 0 hcond.1]
          omega
      | false =>
        rw [if_neg (by simp)] at h
        by_cases hchk : v.getD valley_idx 0 < p.getD peak_idx 0
        · rw [if_pos hchk] at h; cases h
        · rw [if_neg hchk] at h
          have htail := ih (peak_idx + 1) valley_idx true pf vf h (by omega) hpost1 hpost2
          rw [List.drop_eq_getElem_cons hcond.1]
          rw [show (!false) = true from rfl, ivl, List.chain'_cons']
          refine ⟨?_, by simpa using htail⟩
          intro c hc
          rw [List.drop_eq_getElem_cons hcond.2, ivl] at hc
          simp only [List.head?_cons, Option.mem_def, Option.some.injEq] at hc
          subst hc
          show p[peak_idx] ≤ v[valley_idx]
          rw [← List.getD_eq_getElem v 0 hcond.2, ← List.getD_eq_getElem p 0 hcond.1]
          omega
    · rw [if_neg hcond] at h
      simp only [Except.ok.injEq, Prod.mk.injEq] at h
      obtain ⟨rfl, rfl⟩ := h
      rcases not_and_or.mp hcond with hple | hvle
      · have hp : p.drop peak_idx = [] := List.drop_eq_nil_of_le (by omega)
        rw [hp]
        apply chain'_of_length_le_one
        rw [ivl_length]
        simp only [List.length_nil, List.length_drop]
        omega
      · have hv : v.drop valley_idx = [] := List.drop_eq_nil_of_le (by omega)
        rw [hv]
        apply chain'_of_length_le_one
        rw [ivl_length]
        simp only [List.length_nil, List.length_drop]
        omega

/-! ### Closed form of the twitch compilation loop -/

/-- `filterMap` by a function that is `some ∘ g` on every member is `map g`. -/
theorem filterMap_congr_map {α β : Type} (f : α → Option β) (g : α → β) :
    ∀ l : List α, (∀ x ∈ l, f x = some (g x)) → l.filterMap f = l.map g
  | [], _ => rfl
  | x :: xs, h => by
    rw [List.filterMap_cons, h x (List.mem_cons_self x xs),
      filterMap_congr_map f g xs (fun y hy => h y (List.mem_cons_of_mem x hy)),
      List.map_cons]

/-- Closed form of `buildTwitches`: the loop emits exactly the positions from
`st` (1 when the sequence starts with a peak, else 0) up to the second-to-last
peak. -/
theorem buildTwitches_eq (s : Bool) (p v : List ℕ) (h3 : 3 ≤ p.length) :
    buildTwitches s p v =
      (List.range' (if s then 1 else 0) (p.length - 1 - if s then 1 else 0)).map
        (fun i => (p.getD i 0, twitchRecAt s p v i)) := by
  have hst : (if s then 1 else 0) ≤ 1 := by cases s <;> simp
  have h1 : List.range' 0 (if s then 1 else 0) ++
      List.range' (if s then 1 else 0) (p.length - (if s then 1 else 0)) =
      List.range' 0 p.length := by
    have := List.range'_append 0 (if s then 1 else 0) (p.length - (if s then 1 else 0)) 1
    simpa [Nat.sub_add_cancel (by omega : (if s then 1 else 0) ≤ p.length)] using this
  have h2 : List.range' (if s then 1 else 0) (p.length - 1 - (if s then 1 else 0)) ++
      List.range' (p.length - 1) 1 =
      List.range' (if s then 1 else 0) (p.length - (if s then 1 else 0)) := by
    have := List.range'_append (if s then 1 else 0) (p.length - 1 - (if s then 1 else 0)) 1 1
    rw [show (if s then 1 else 0) + 1 * (p.length - 1 - (if s then 1 else 0))
        = p.length - 1 by omega] at this
    rw [show 1 + (p.length - 1 - (if s then 1 else 0))
        = p.length - (if s then 1 else 0) by omega] at this
    exact this
  rw [buildTwitches, List.range_eq_range', ← h1, ← h2, List.filterMap_append,
    List.filterMap_append]
  have hfirst : (List.range' 0 (if s then 1 else 0)).filterMap (fun itr_idx =>
      if itr_idx < p.length - 1 then
        if itr_idx = 0 ∧ s then none
        else some (p.getD itr_idx 0, twitchRecAt s p v itr_idx)
      else none) = [] := by
    cases s with
    | false => simp
    | true => simp [List.range']
  have hlast : (List.range' (p.length - 1) 1).filterMap (fun itr_idx =>
      if itr_idx < p.length - 1 then
        if itr_idx = 0 ∧ s then none
        else some (p.getD itr_idx 0, twitchRecAt s p v itr_idx)
      else none) = [] := by
    simp [List.range']
  have hmid : (List.range' (if s then 1 else 0) (p.length - 1 - (if s then 1 else 0))).filterMap
      (fun itr_idx =>
        if itr_idx < p.length - 1 then
          if itr_idx = 0 ∧ s then none
          else some (p.getD itr_idx 0, twitchRecAt s p v itr_idx)
        else none) =
      (List.range' (if s then 1 else 0) (p.length - 1 - (if s then 1 else 0))).map
        (fun i => (p.getD i 0, twitchRecAt s p v i)) := by
    apply filterMap_congr_map
    intro i hi
    rw [List.mem_range'_1] at hi
    rw [if_pos (by omega)]
    rw [if_neg ?_]
    rintro ⟨rfl, hss⟩
    revert hss
    cases s with
    | false => simp
    | true => intro _; rw [if_pos rfl] at hi; omega
  rw [hfirst, hlast, hmid]
  simp

/-! ### Dissecting a successful `find_twitch_indices` run -/

/-- A successful `find_twitch_indices` run means: at least 3 peaks and 3
valleys, a successful scan from the start cursors whose final cursors pass both
post-loop checks, and a result equal to the compiled twitch list. -/
theorem find_twitch_indices_ok_elim (p v : List ℕ) (m : List (ℕ × TwitchRec))
    (hok : find_twitch_indices p v = .ok m) :
    3 ≤ p.length ∧ 3 ≤ v.length ∧
      ∃ pf vf,
        scanLoop p v (p.length + v.length)
            (find_start_indices (decide (p.getD 0 0 < v.getD 0 0))).1
            (find_start_indices (decide (p.getD 0 0 < v.getD 0 0))).2
            (decide (p.getD 0 0 < v.getD 0 0)) = .ok (pf, vf) ∧
          p.length - 1 ≤ pf ∧ v.length - 1 ≤ vf ∧
          m = buildTwitches (decide (p.getD 0 0 < v.getD 0 0)) p v := by
  rw [find_twitch_indices] at hok
  rcases h1 : too_few_peaks_or_valleys p v MIN_NUMBER_PEAKS MIN_NUMBER_VALLEYS with e | u
  · rw [h1] at hok; cases hok
  have hlen : 3 ≤ p.length ∧ 3 ≤ v.length := by
    rw [too_few_peaks_or_valleys, MIN_NUMBER_PEAKS, MIN_NUMBER_VALLEYS] at h1
    by_cases hp : p.length < 3
    · rw [if_pos hp] at h1; cases h1
    by_cases hv : v.length < 3
    · rw [if_neg hp, if_pos hv] at h1; cases h1
    exact ⟨by omega, by omega⟩
  rw [h1] at hok
  simp only at hok
  rcases h2 : scanLoop p v (p.length + v.length)
      (find_start_indices (decide (p.getD 0 0 < v.getD 0 0))).1
      (find_start_indices (decide (p.getD 0 0 < v.getD 0 0))).2
      (decide (p.getD 0 0 < v.getD 0 0)) with e | pv
  · rw [h2] at hok; cases hok
  obtain ⟨pf, vf⟩ := pv
  rw [h2] at hok
  simp only at hok
  by_cases hc1 : pf < p.length - 1
  · rw [if_pos hc1] at hok; cases hok
  by_cases hc2 : vf < v.length - 1
  · rw [if_neg hc1, if_pos hc2] at hok; cases hok
  rw [if_neg hc1, if_neg hc2] at hok
  refine ⟨hlen.1, hlen.2, pf, vf, rfl, by omega, by omega, ?_⟩
  cases hok
  rfl

/-- If the first comparison of the alternation scan when the sequence starts
with a peak succeeds, then the first valley does not exceed the second peak. -/
theorem scanLoop_first_check (p v : List ℕ) (fuel : ℕ) (pf vf : ℕ)
    (h3p : 3 ≤ p.length) (h3v : 3 ≤ v.length)
    (h : scanLoop p v (fuel + 1) 1 0 true = .ok (pf, vf)) :
    v.getD 0 0 ≤ p.getD 1 0 := by
  rw [scanLoop, if_pos (by constructor <;> omega), if_pos rfl] at h
  by_cases hchk : p.getD 1 0 < v.getD 0 0
  · rw [if_pos hchk] at h; cases h
  · omega

/-- If the interleaving is ordered by index and the merged indices are
pairwise distinct, then sorting the tagged concatenation by index yields
exactly the interleaving. -/
theorem mergedSorted_eq_ivl (b : Bool) (p v : List ℕ)
    (hchain : List.Chain' idxLe (ivl b p v)) (hnd : (p ++ v).Nodup) :
    mergedSorted p v = ivl b p v := by
  have hmapfst : ((p.map (fun x => (x, true)) ++ v.map (fun x => (x, false))).map Prod.fst)
      = p ++ v := by
    simp [List.map_map, Function.comp_def]
  have hndfst : ((p.map (fun x => (x, true)) ++ v.map (fun x => (x, false))).map Prod.fst).Nodup := by
    rw [hmapfst]; exact hnd
  have htag : List.Pairwise (fun a c : ℕ × Bool => a.1 ≠ c.1)
      (p.map (fun x => (x, true)) ++ v.map (fun x => (x, false))) :=
    List.pairwise_map.mp hndfst
  have hne_symm : ∀ {x y : ℕ × Bool}, x.1 ≠ y.1 → y.1 ≠ x.1 := fun h => h.symm
  have hpermI := ivl_perm b p v
  have hkeysI : List.Pairwise (fun a c : ℕ × Bool => a.1 ≠ c.1) (ivl b p v) :=
    (List.Perm.pairwise_iff hne_symm hpermI).mpr htag
  have hsortI : List.Sorted idxLt (ivl b p v) :=
    List.Pairwise.imp₂ (fun a c hle hne => lt_of_le_of_ne hle hne)
      (List.chain'_iff_pairwise.mp hchain) hkeysI
  have hpermM := List.perm_insertionSort idxLe
    (p.map (fun x => (x, true)) ++ v.map (fun x => (x, false)))
  have hkeysM : List.Pairwise (fun a c : ℕ × Bool => a.1 ≠ c.1) (mergedSorted p v) :=
    (List.Perm.pairwise_iff hne_symm hpermM).mpr htag
  have hsortM : List.Sorted idxLt (mergedSorted p v) :=
    List.Pairwise.imp₂ (fun a c hle hne => lt_of_le_of_ne hle hne)
      (List.sorted_insertionSort idxLe
        (p.map (fun x => (x, true)) ++ v.map (fun x => (x, false)))) hkeysM
  exact List.eq_of_perm_of_sorted (hpermM.trans hpermI.symm) hsortM hsortI

/-! ### Claim C1: alternation invariant -/

/-- **C1.**  For every input on which `find_twitch_indices` returns without
raising an error (and on which the peak and valley sample indices are pairwise
distinct, as they are for any detector output), merging `peak_indices` and
`valley_indices` and sorting the merged sequence by index yields a sequence in
which no two adjacent entries are of the same kind at any interior position —
in particular at every position other than the very first and last adjacent
pairs, where the claim tolerates an un-paired leading or trailing extremum. -/
theorem find_twitch_indices_alternation (p v : List ℕ) (m : List (ℕ × TwitchRec))
    (hok : find_twitch_indices p v = .ok m) (hnd : (p ++ v).Nodup) :
    ∀ i, 0 < i → i + 2 < (mergedSorted p v).length →
      ((mergedSorted p v).getD i (0, true)).2 ≠ ((mergedSorted p v).getD (i + 1) (0, true)).2 := by
  obtain ⟨h3p, h3v, pf, vf, hscan, hpost1, hpost2, hm⟩ := find_twitch_indices_ok_elim p v m hok
  have h0p : 0 < p.length := by omega
  have h0v : 0 < v.length := by omega
  have hpeq : p = p[0] :: p.drop 1 := by
    simpa using List.drop_eq_getElem_cons h0p
  have hveq : v = v[0] :: v.drop 1 := by
    simpa using List.drop_eq_getElem_cons h0v
  cases hsb : decide (p.getD 0 0 < v.getD 0 0) with
  | true =>
    rw [hsb] at hscan
    have hlt : p.getD 0 0 < v.getD 0 0 := of_decide_eq_true hsb
    simp only [find_start_indices, if_pos rfl] at hscan
    have hfacts := scanLoop_ok_facts p v (p.length + v.length) 1 0 true pf vf hscan
      (by omega) (by omega) (by omega)
    rw [if_pos rfl] at hfacts
    have hsz : v.length ≤ p.length ∧ p.length ≤ v.length + 1 := by omega
    have htail := scanLoop_ok_chain p v (p.length + v.length) 1 0 true pf vf hscan
      (by omega) (by omega) (by omega)
    simp only [List.drop_zero, Bool.not_true] at htail
    have hchain : List.Chain' idxLe (ivl true p v) := by
      rw [hpeq, ivl, List.chain'_cons']
      constructor
      · intro c hc
        rw [hveq, ivl] at hc
        simp only [List.head?_cons, Option.mem_def, Option.some.injEq] at hc
        subst hc
        show p[0] ≤ v[0]
        rw [← List.getD_eq_getElem p 0 h0p, ← List.getD_eq_getElem v 0 h0v]
        omega
      · exact htail
    have hkinds := ivl_kinds_chain true p v (fun _ => hsz) (fun h => by cases h)
    have heq := mergedSorted_eq_ivl true p v hchain hnd
    intro i hi1 hi2
    rw [heq] at hi2 ⊢
    have hb1 : i < (ivl true p v).length := by omega
    have hb2 : i + 1 < (ivl true p v).length := by omega
    rw [List.getD_eq_getElem _ _ hb1, List.getD_eq_getElem _ _ hb2]
    have := List.chain'_iff_get.mp hkinds i (by omega)
    simpa [List.get_eq_getElem] using this
  | false =>
    rw [hsb] at hscan
    have hge : v.getD 0 0 ≤ p.getD 0 0 := by
      have := of_decide_eq_false hsb
      omega
    simp only [find_start_indices, Bool.false_eq_true, if_neg, ite_false] at hscan
    have hfacts := scanLoop_ok_facts p v (p.length + v.length) 0 1 false pf vf hscan
      (by omega) (by omega) (by omega)
    rw [if_neg (by simp)] at hfacts
    have hsz : p.length ≤ v.length ∧ v.length ≤ p.length + 1 := by omega
    have htail := scanLoop_ok_chain p v (p.length + v.length) 0 1 false pf vf hscan
      (by omega) (by omega) (by omega)
    simp only [List.drop_zero, Bool.not_false] at htail
    have hchain : List.Chain' idxLe (ivl false p v) := by
      rw [hveq, ivl, List.chain'_cons']
      constructor
      · intro c hc
        rw [hpeq, ivl] at hc
        simp only [List.head?_cons, Option.mem_def, Option.some.injEq] at hc
        subst hc
        show v[0] ≤ p[0]
        rw [← List.getD_eq_getElem p 0 h0p, ← List.getD_eq_getElem v 0 h0v]
        omega
      · exact htail
    have hkinds := ivl_kinds_chain false p v (fun h => by cases h) (fun _ => hsz)
    have heq := mergedSorted_eq_ivl false p v hchain hnd
    intro i hi1 hi2
    rw [heq] at hi2 ⊢
    have hb1 : i < (ivl false p v).length := by omega
    have hb2 : i + 1 < (ivl false p v).length := by omega
    rw [List.getD_eq_getElem _ _ hb1, List.getD_eq_getElem _ _ hb2]
    have := List.chain'_iff_get.mp hkinds i (by omega)
    simpa [List.get_eq_getElem] using this

/-- Witness for C1: at `peak_indices = [1, 5, 9]`, `valley_indices = [3, 7, 11]`
the run succeeds and the interior adjacent pair at positions (1, 2) of the
merged sorted sequence has differing kinds. -/
theorem find_twitch_indices_alternation_witness :
    ((mergedSorted [1, 5, 9] [3, 7, 11]).getD 1 (0, true)).2
      ≠ ((mergedSorted [1, 5, 9] [3, 7, 11]).getD 2 (0, true)).2 :=
  find_twitch_indices_alternation [1, 5, 9] [3, 7, 11]
    [(5, ⟨some 1, some 3, some 9, some 7⟩)] (by decide) (by decide) 1
    (by decide) (by decide)

/-! ### Claim C2: emitted twitch keys and their records -/

/-- **C2.**  For every successful `find_twitch_indices` result: writing `st`
for the number of leading peaks skipped (1 when the sequence starts with a
peak — i.e. when the first peak lacks a preceding valley — else 0), the emitted
keys are exactly `peak_indices[st], …, peak_indices[len-2]`: every peak except
the last, and except the first when it has no preceding valley.  In every
emitted record the prior-valley, subsequent-peak and subsequent-valley entries
are non-null, and the prior-peak entry is null exactly for the very first
emitted twitch when that twitch is the sequence's first peak. -/
theorem find_twitch_indices_keys_and_records (p v : List ℕ) (m : List (ℕ × TwitchRec))
    (hok : find_twitch_indices p v = .ok m) :
    m.length = p.length - 1 - (if p.getD 0 0 < v.getD 0 0 then 1 else 0) ∧
    (∀ i, i < m.length →
      (m.getD i (0, ⟨none, none, none, none⟩)).1
        = p.getD (i + (if p.getD 0 0 < v.getD 0 0 then 1 else 0)) 0) ∧
    (∀ i, i < m.length →
      (m.getD i (0, ⟨none, none, none, none⟩)).2.priorValley.isSome = true ∧
      (m.getD i (0, ⟨none, none, none, none⟩)).2.subsequentPeak.isSome = true ∧
      (m.getD i (0, ⟨none, none, none, none⟩)).2.subsequentValley.isSome = true) ∧
    (∀ i, i < m.length →
      ((m.getD i (0, ⟨none, none, none, none⟩)).2.priorPeak = none ↔
        i = 0 ∧ (m.getD i (0, ⟨none, none, none, none⟩)).1 = p.getD 0 0)) := by
  obtain ⟨h3p, h3v, pf, vf, hscan, hpost1, hpost2, hm⟩ := find_twitch_indices_ok_elim p v m hok
  subst hm
  cases hsb : decide (p.getD 0 0 < v.getD 0 0) with
  | true =>
    have hc : p.getD 0 0 < v.getD 0 0 := of_decide_eq_true hsb
    have hv0p1 : v.getD 0 0 ≤ p.getD 1 0 := by
      obtain ⟨k, hk⟩ : ∃ k, p.length + v.length = k + 1 := ⟨p.length + v.length - 1, by omega⟩
      rw [hsb] at hscan
      simp only [find_start_indices, if_pos rfl] at hscan
      rw [hk] at hscan
      exact scanLoop_first_check p v k pf vf h3p h3v hscan
    rw [buildTwitches_eq true p v h3p, if_pos (rfl : true = true), if_pos hc]
    have hL : ((List.range' 1 (p.length - 1 - 1)).map
        (fun i => (p.getD i 0, twitchRecAt true p v i))).length = p.length - 1 - 1 := by
      rw [List.length_map, List.length_range']
    refine ⟨hL, ?_, ?_, ?_⟩
    · intro i hi
      rw [hL] at hi
      rw [List.getD_eq_getElem _ _ (by rw [hL]; exact hi), List.getElem_map,
        List.getElem_range']
      simp [Nat.add_comm]
    · intro i hi
      rw [hL] at hi
      rw [List.getD_eq_getElem _ _ (by rw [hL]; exact hi), List.getElem_map]
      simp [twitchRecAt]
    · intro i hi
      rw [hL] at hi
      rw [List.getD_eq_getElem _ _ (by rw [hL]; exact hi), List.getElem_map,
        List.getElem_range']
      simp only [twitchRecAt]
      constructor
      · intro hnone
        exact absurd hnone (by simp)
      · rintro ⟨rfl, habs⟩
        simp only [Nat.mul_zero, Nat.add_zero] at habs
        omega
  | false =>
    have hc : ¬(p.getD 0 0 < v.getD 0 0) := of_decide_eq_false hsb
    rw [buildTwitches_eq false p v h3p, if_neg (by simp : ¬(false = true)), if_neg hc]
    have hL : ((List.range' 0 (p.length - 1 - 0)).map
        (fun i => (p.getD i 0, twitchRecAt false p v i))).length = p.length - 1 - 0 := by
      rw [List.length_map, List.length_range']
    refine ⟨hL, ?_, ?_, ?_⟩
    · intro i hi
      rw [hL] at hi
      rw [List.getD_eq_getElem _ _ (by rw [hL]; exact hi), List.getElem_map,
        List.getElem_range']
      simp
    · intro i hi
      rw [hL] at hi
      rw [List.getD_eq_getElem _ _ (by rw [hL]; exact hi), List.getElem_map]
      simp [twitchRecAt]
    · intro i hi
      rw [hL] at hi
      rw [List.getD_eq_getElem _ _ (by rw [hL]; exact hi), List.getElem_map,
        List.getElem_range']
      simp only [twitchRecAt]
      constructor
      · intro hnone
        by_cases hi0 : i = 0
        · subst hi0; simp
        · rw [if_neg (by omega)] at hnone
          cases hnone
      · rintro ⟨rfl, _⟩
        simp

/-- Witness for C2: at `peak_indices = [1, 5, 9]`, `valley_indices = [3, 7, 11]`
(which starts with a peak) the run succeeds with exactly one twitch, keyed by
the middle peak, whose three required neighbour entries are non-null and whose
prior-peak entry is not null. -/
theorem find_twitch_indices_keys_and_records_witness :
    ([(5, (⟨some 1, some 3, some 9, some 7⟩ : TwitchRec))] : List (ℕ × TwitchRec)).length
        = [1, 5, 9].length - 1 - (if [1, 5, 9].getD 0 0 < [3, 7, 11].getD 0 0 then 1 else 0) ∧
      (([(5, (⟨some 1, some 3, some 9, some 7⟩ : TwitchRec))].getD 0
          (0, ⟨none, none, none, none⟩)).2.priorValley.isSome = true ∧
        ([(5, (⟨some 1, some 3, some 9, some 7⟩ : TwitchRec))].getD 0
          (0, ⟨none, none, none, none⟩)).2.subsequentPeak.isSome = true ∧
        ([(5, (⟨some 1, some 3, some 9, some 7⟩ : TwitchRec))].getD 0
          (0, ⟨none, none, none, none⟩)).2.subsequentValley.isSome = true) ∧
      (([(5, (⟨some 1, some 3, some 9, some 7⟩ : TwitchRec))].getD 0
          (0, ⟨none, none, none, none⟩)).2.priorPeak = none ↔
        0 = 0 ∧ ([(5, (⟨some 1, some 3, some 9, some 7⟩ : TwitchRec))].getD 0
          (0, ⟨none, none, none, none⟩)).1 = [1, 5, 9].getD 0 0) := by
  have H := find_twitch_indices_keys_and_records [1, 5, 9] [3, 7, 11]
    [(5, ⟨some 1, some 3, some 9, some 7⟩)] (by decide)
  exact ⟨H.1, H.2.2.1 0 (by decide), H.2.2.2 0 (by decide)⟩

/-! ## `peak_detector` (peak_detection.py lines 29-129)

`scipy.signal.find_peaks` is an external library routine; `peak_detector` is
parameterised over it.  The collaborator receives the exact argument
expressions of the two Python call sites — the scaled signal and the `width`,
`distance` and `prominence` keyword values — and returns the peak indices
together with the `left_ips` / `right_ips` width properties consumed by the
valley repair loop. -/

/-- The output of one `find_peaks` call: the indices and the interpolated
left/right intersection points (`properties["left_ips"]`,
`properties["right_ips"]`). -/
structure FindPeaksResult where
  indices : List ℕ
  leftIps : List ℚ
  rightIps : List ℚ
deriving DecidableEq, Repr

/-- The shape of the external `find_peaks` collaborator: signal, width,
distance, prominence. -/
abbrev FindPeaksFn := List ℚ → ℚ → ℚ → ℚ → FindPeaksResult

/-- Python's `round(x, 0)`: round half to even. -/
def roundHalfToEven (q : ℚ) : ℤ :=
  if q - ⌊q⌋ < 1 / 2 then ⌊q⌋
  else if 1 / 2 < q - ⌊q⌋ then ⌊q⌋ + 1
  else if ⌊q⌋ % 2 = 0 then ⌊q⌋ else ⌊q⌋ + 1

/-- `np.max` over a non-empty array (0 junk value on the unreachable empty
case). -/
def listMaxD : List ℚ → ℚ
  | [] => 0
  | x :: xs => xs.foldl max x

/-- `np.min` over a non-empty array. -/
def listMinD : List ℚ → ℚ
  | [] => 0
  | x :: xs => xs.foldl min x

/-- Lines 63-71: `min_required_samples_between_twitches =
int(round((1 / max_possible_twitch_freq) * MICRO_TO_BASE_CONVERSION /
sampling_period_us, 0))` with `max_possible_twitch_freq = 7` and
`sampling_period_us = t[1] - t[0]`. -/
def min_required_samples (timeSignal : List ℚ) : ℤ :=
  roundHalfToEven
    ((1 / 7) * MICRO_TO_BASE_CONVERSION / (timeSignal.getD 1 0 - timeSignal.getD 0 0))

/-- Lines 73-76: `max_prominence = abs(max_height - min_height)`. -/
def max_prominence (magneticSignal : List ℚ) : ℚ :=
  |listMaxD magneticSignal - listMinD magneticSignal|

/-- The degenerate-valley repair `while` loop (peak_detection.py lines
99-115), with fuel (each iteration decreases `len(valley_indices) - i` by
one; the call site passes `len(valley_indices)` with `i = 1`).  When two
adjacent valleys share both interpolated intersection points, the valley at
position `i` is deleted when `magnetic_signal[valley_indices[i-1]] >=
magnetic_signal[valley_indices[i]]`, else the one at `i - 1`; otherwise `i`
advances. -/
def repairLoop (magneticSignal : List ℚ) :
    ℕ → ℕ → List ℕ → List ℚ → List ℚ → List ℕ × List ℚ × List ℚ
  | 0, _, valley_indices, left_ips, right_ips => (valley_indices, left_ips, right_ips)
  | fuel + 1, i, valley_indices, left_ips, right_ips =>
    if i < valley_indices.length then
      if left_ips.getD i 0 = left_ips.getD (i - 1) 0 ∧
          right_ips.getD i 0 = right_ips.getD (i - 1) 0 then
        if magneticSignal.getD (valley_indices.getD (i - 1) 0) 0 ≥
            magneticSignal.getD (valley_indices.getD i 0) 0 then
          repairLoop magneticSignal fuel i (valley_indices.eraseIdx i)
            (left_ips.eraseIdx i) (right_ips.eraseIdx i)
        else
          repairLoop magneticSignal fuel i (valley_indices.eraseIdx (i - 1))
            (left_ips.eraseIdx (i - 1)) (right_ips.eraseIdx (i - 1))
      else repairLoop magneticSignal fuel (i + 1) valley_indices left_ips right_ips
    else (valley_indices, left_ips, right_ips)

/-- The windowing predicate of lines 121 and 126:
`(time >= start_time) & (time <= end_time)`, where `end_time = np.inf`
(`none`) accepts every time. -/
def inWindow (start_time : ℚ) (end_time : Option ℚ) (t : ℚ) : Bool :=
  decide (start_time ≤ t) &&
    (match end_time with
     | none => true
     | some e => decide (t ≤ e))

/-- The windowing guard of line 118, `start_time > 0 or end_time < max_time`:
`end_time` is `none` when it was reset to `np.inf` (then the comparison is
false); the guard compares `end_time` (seconds) against `max_time`
(microseconds), exactly as the source does. -/
def windowRequested (start_time : ℚ) (end_time : Option ℚ) (max_time : ℚ) : Bool :=
  decide (0 < start_time) ||
    (match end_time with
     | none => false
     | some e => decide (e < max_time))

/-- Lines 62-129 of `peak_detector`: detection (two `find_peaks` calls),
valley repair, and windowing. -/
def detectWindow (find_peaks : FindPeaksFn) (timeSignal magneticSignal : List ℚ)
    (twitches_point_up : Bool) (start_time : ℚ) (end_time : Option ℚ)
    (prominence_factors width_factors : ℚ × ℚ) : List ℕ × List ℕ :=
  let max_time := timeSignal.getLastD 0
  let peak_invertor_factor : ℚ := if twitches_point_up then 1 else -1
  let valley_invertor_factor : ℚ := if twitches_point_up then -1 else 1
  let minReq : ℚ := (min_required_samples timeSignal : ℚ)
  let maxProm := max_prominence magneticSignal
  let peak_result := find_peaks (magneticSignal.map (fun x => x * peak_invertor_factor))
    (minReq / width_factors.1) minReq (maxProm / prominence_factors.1)
  let valley_result := find_peaks (magneticSignal.map (fun x => x * valley_invertor_factor))
    (minReq / width_factors.2) minReq (maxProm / prominence_factors.2)
  let repaired := repairLoop magneticSignal valley_result.indices.length 1
    valley_result.indices valley_result.leftIps valley_result.rightIps
  if windowRequested start_time end_time max_time then
    (peak_result.indices.filter (fun i =>
        inWindow start_time end_time (timeSignal.getD i 0 / MICRO_TO_BASE_CONVERSION)),
     repaired.1.filter (fun i =>
        inWindow start_time end_time (timeSignal.getD i 0 / MICRO_TO_BASE_CONVERSION)))
  else (peak_result.indices, repaired.1)

/-- `peak_detector` (peak_detection.py lines 29-129).  Lines 50-60 normalise
the window: `start_time = np.max([0, start_time])`, `end_time =
np.min([end_time, max_time / MICRO_TO_BASE_CONVERSION])`, and — per the
source comment "if provided end time is less than or equal to start time,
reset" — `end_time` becomes `np.inf` (`none`) when `end_time <= start_time`.
No branch of the function raises. -/
def peak_detector (find_peaks : FindPeaksFn) (timeSignal magneticSignal : List ℚ)
    (twitches_point_up : Bool) (start_time : ℚ) (end_time : Option ℚ)
    (prominence_factors width_factors : ℚ × ℚ) : List ℕ × List ℕ :=
  let max_time := timeSignal.getLastD 0
  let start_time2 := max 0 start_time
  let end_time2 : ℚ :=
    match end_time with
    | none => max_time / MICRO_TO_BASE_CONVERSION
    | some e => min e (max_time / MICRO_TO_BASE_CONVERSION)
  let end_time3 : Option ℚ := if end_time2 ≤ start_time2 then none else some end_time2
  detectWindow find_peaks timeSignal magneticSignal twitches_point_up start_time2 end_time3
    prominence_factors width_factors

/-- The `find_peaks` call for valleys performed by `detectWindow` when
`twitches_point_up = True` (identical, after sign arithmetic, to the one for
`twitches_point_up = False` on the negated signal). -/
def valleySearchResult (find_peaks : FindPeaksFn) (timeSignal magneticSignal : List ℚ)
    (prominence_factors width_factors : ℚ × ℚ) : FindPeaksResult :=
  find_peaks (magneticSignal.map (fun x => x * (-1)))
    ((min_required_samples timeSignal : ℚ) / width_factors.2)
    (min_required_samples timeSignal : ℚ)
    (max_prominence magneticSignal / prominence_factors.2)

/-- No two adjacent entries of a `find_peaks` result share both interpolated
intersection points — i.e. the degenerate-valley repair has nothing to do. -/
def noDegenerate (res : FindPeaksResult) : Prop :=
  ∀ i, 0 < i → i < res.indices.length →
    ¬(res.leftIps.getD i 0 = res.leftIps.getD (i - 1) 0 ∧
      res.rightIps.getD i 0 = res.rightIps.getD (i - 1) 0)

/-! ### Facts about the repair loop -/

/-- `getD` of a list with a later position erased. -/
theorem getD_eraseIdx_of_lt {α : Type} :
    ∀ (l : List α) (i j : ℕ) (d : α), j < i → (l.eraseIdx i).getD j d = l.getD j d
  | [], _, _, _, _ => rfl
  | x :: xs, 0, j, d, h => absurd h (Nat.not_lt_zero j)
  | x :: xs, i + 1, 0, d, _ => rfl
  | x :: xs, i + 1, j + 1, d, h => by
    simp only [List.eraseIdx_cons_succ, List.getD_cons_succ]
    exact getD_eraseIdx_of_lt xs i j d (by omega)

/-- `getD` of a list with an earlier (in-range) position erased. -/
theorem getD_eraseIdx_of_ge {α : Type} :
    ∀ (l : List α) (i j : ℕ) (d : α), i < l.length → i ≤ j →
      (l.eraseIdx i).getD j d = l.getD (j + 1) d
  | [], i, _, _, hi, _ => absurd hi (by simp)
  | x :: xs, 0, j, d, _, _ => by
    simp only [List.eraseIdx_cons_zero, List.getD_cons_succ]
  | x :: xs, i + 1, 0, d, _, hij => absurd hij (by omega)
  | x :: xs, i + 1, j + 1, d, hi, hij => by
    simp only [List.eraseIdx_cons_succ, List.getD_cons_succ]
    exact getD_eraseIdx_of_ge xs i j d (by simpa using hi) (by omega)

/-- When no adjacent pair from position `i` on is degenerate, the repair loop
deletes nothing. -/
theorem repairLoop_id (mag : List ℚ) :
    ∀ (fuel i : ℕ) (v : List ℕ) (l r : List ℚ),
      (∀ j, i ≤ j → j < v.length →
        ¬(l.getD j 0 = l.getD (j - 1) 0 ∧ r.getD j 0 = r.getD (j - 1) 0)) →
      repairLoop mag fuel i v l r = (v, l, r)
  | 0, _, _, _, _, _ => rfl
  | fuel + 1, i, v, l, r, h => by
    rw [repairLoop]
    by_cases hi : i < v.length
    · rw [if_pos hi, if_neg (h i le_rfl hi)]
      exact repairLoop_id mag fuel (i + 1) v l r (fun j hj => h j (by omega))
    · rw [if_neg hi]

/-- One degenerate step of the repair loop: the pair is collapsed by deleting
the valley whose raw signal amplitude is algebraically smaller; at equal
amplitudes the later valley of the pair is deleted. -/
theorem repairLoop_degenerate_step (mag : List ℚ) (fuel i : ℕ) (v : List ℕ) (l r : List ℚ)
    (hiv : i < v.length)
    (hl : l.getD i 0 = l.getD (i - 1) 0) (hr : r.getD i 0 = r.getD (i - 1) 0) :
    repairLoop mag (fuel + 1) i v l r =
      repairLoop mag fuel i
        (v.eraseIdx (if mag.getD (v.getD (i - 1) 0) 0 < mag.getD (v.getD i 0) 0
          then i - 1 else i))
        (l.eraseIdx (if mag.getD (v.getD (i - 1) 0) 0 < mag.getD (v.getD i 0) 0
          then i - 1 else i))
        (r.eraseIdx (if mag.getD (v.getD (i - 1) 0) 0 < mag.getD (v.getD i 0) 0
          then i - 1 else i)) := by
  rw [repairLoop, if_pos hiv, if_pos ⟨hl, hr⟩]
  by_cases hcmp : mag.getD (v.getD (i - 1) 0) 0 ≥ mag.getD (v.getD i 0) 0
  · rw [if_pos hcmp, if_neg (not_lt.mpr hcmp)]
  · rw [if_neg hcmp, if_pos (not_le.mp hcmp)]

/-- The scan of the repair loop leaves no adjacent degenerate pair behind:
pairs before the cursor are non-degenerate at entry and remain so after every
deletion (equality of intersection points is transitive), and the loop only
ends once the cursor passed the whole list. -/
theorem repairLoop_no_degenerate_pairs (mag : List ℚ) :
    ∀ (fuel i : ℕ) (v : List ℕ) (l r : List ℚ),
      v.length - i ≤ fuel → 1 ≤ i → l.length = v.length → r.length = v.length →
      (∀ j, j + 1 < i → j + 1 < v.length →
        ¬(l.getD (j + 1) 0 = l.getD j 0 ∧ r.getD (j + 1) 0 = r.getD j 0)) →
      ∀ j, j + 1 < (repairLoop mag fuel i v l r).1.length →
        ¬((repairLoop mag fuel i v l r).2.1.getD (j + 1) 0
            = (repairLoop mag fuel i v l r).2.1.getD j 0 ∧
          (repairLoop mag fuel i v l r).2.2.getD (j + 1) 0
            = (repairLoop mag fuel i v l r).2.2.getD j 0) := by
  intro fuel
  induction fuel with
  | zero =>
    intro i v l r hfuel hi1 hlv hrv hinv j hj
    have hj' : j + 1 < v.length := hj
    show ¬(l.getD (j + 1) 0 = l.getD j 0 ∧ r.getD (j + 1) 0 = r.getD j 0)
    exact hinv j (by omega) (by omega)
  | succ fuel ih =>
    intro i v l r hfuel hi1 hlv hrv hinv j hj
    rw [repairLoop] at hj ⊢
    by_cases hicase : i < v.length
    · rw [if_pos hicase] at hj ⊢
      by_cases hdeg : l.getD i 0 = l.getD (i - 1) 0 ∧ r.getD i 0 = r.getD (i - 1) 0
      · rw [if_pos hdeg] at hj ⊢
        by_cases hcmp : mag.getD (v.getD (i - 1) 0) 0 ≥ mag.getD (v.getD i 0) 0
        · rw [if_pos hcmp] at hj ⊢
          refine ih i (v.eraseIdx i) (l.eraseIdx i) (r.eraseIdx i)
            ?_ hi1 ?_ ?_ ?_ j hj
          · rw [List.length_eraseIdx, if_pos hicase]; omega
          · rw [List.length_eraseIdx, if_pos (by omega), List.length_eraseIdx,
              if_pos hicase]; omega
          · rw [List.length_eraseIdx, if_pos (by omega), List.length_eraseIdx,
              if_pos hicase]; omega
          · intro k hk1 hk2
            rw [getD_eraseIdx_of_lt l i (k + 1) 0 (by omega),
              getD_eraseIdx_of_lt l i k 0 (by omega),
              getD_eraseIdx_of_lt r i (k + 1) 0 (by omega),
              getD_eraseIdx_of_lt r i k 0 (by omega)]
            exact hinv k hk1 (by omega)
        · rw [if_neg hcmp] at hj ⊢
          obtain ⟨c, rfl⟩ : ∃ c, i = c + 1 := ⟨i - 1, by omega⟩
          simp only [Nat.add_sub_cancel] at hj hdeg ⊢
          refine ih (c + 1) (v.eraseIdx c) (l.eraseIdx c) (r.eraseIdx c)
            ?_ (by omega) ?_ ?_ ?_ j hj
          · rw [List.length_eraseIdx, if_pos (by omega)]; omega
          · rw [List.length_eraseIdx, if_pos (by omega), List.length_eraseIdx,
              if_pos (by omega)]; omega
          · rw [List.length_eraseIdx, if_pos (by omega), List.length_eraseIdx,
              if_pos (by omega)]; omega
          · intro k hk1 hk2
            by_cases hkc : k + 1 < c
            · rw [getD_eraseIdx_of_lt l c (k + 1) 0 (by omega),
                getD_eraseIdx_of_lt l c k 0 (by omega),
                getD_eraseIdx_of_lt r c (k + 1) 0 (by omega),
                getD_eraseIdx_of_lt r c k 0 (by omega)]
              exact hinv k (by omega) (by omega)
            · have hkeq : k + 1 = c := by omega
              subst hkeq
              rw [getD_eraseIdx_of_ge l (k + 1) (k + 1) 0 (by omega) le_rfl,
                getD_eraseIdx_of_lt l (k + 1) k 0 (by omega),
                getD_eraseIdx_of_ge r (k + 1) (k + 1) 0 (by omega) le_rfl,
                getD_eraseIdx_of_lt r (k + 1) k 0 (by omega)]
              intro hnew
              exact hinv k (by omega) (by omega)
                ⟨hdeg.1.symm.trans hnew.1, hdeg.2.symm.trans hnew.2⟩
      · rw [if_neg hdeg] at hj ⊢
        refine ih (i + 1) v l r (by omega) (by omega) hlv hrv ?_ j hj
        intro k hk1 hk2
        by_cases hki : k + 1 < i
        · exact hinv k hki hk2
        · have : k + 1 = i := by omega
          subst this
          simpa using hdeg
    · rw [if_neg hicase] at hj ⊢
      have hj' : j + 1 < v.length := hj
      show ¬(l.getD (j + 1) 0 = l.getD j 0 ∧ r.getD (j + 1) 0 = r.getD j 0)
      exact hinv j (by omega) (by omega)

/-! ### Claim C7: degenerate-pair repair -/

/-- **C7.**  In `peak_detector`'s left-to-right valley scan: (1) whenever two
adjacent detected valleys have equal interpolated left intersection points and
equal right intersection points, the pair is collapsed by deleting the one
whose raw signal amplitude is algebraically smaller — at equal amplitudes the
later valley of the pair — after which the scan continues on the shortened
lists; (2) the scan, as invoked by `peak_detector` (cursor 1, fuel
`len(valley_indices)`), repeats until no adjacent degenerate pair remains: its
output contains none. -/
theorem peak_detector_valley_repair :
    (∀ (mag : List ℚ) (fuel i : ℕ) (v : List ℕ) (l r : List ℚ),
      i < v.length →
      l.getD i 0 = l.getD (i - 1) 0 → r.getD i 0 = r.getD (i - 1) 0 →
      repairLoop mag (fuel + 1) i v l r =
        repairLoop mag fuel i
          (v.eraseIdx (if mag.getD (v.getD (i - 1) 0) 0 < mag.getD (v.getD i 0) 0
            then i - 1 else i))
          (l.eraseIdx (if mag.getD (v.getD (i - 1) 0) 0 < mag.getD (v.getD i 0) 0
            then i - 1 else i))
          (r.eraseIdx (if mag.getD (v.getD (i - 1) 0) 0 < mag.getD (v.getD i 0) 0
            then i - 1 else i))) ∧
    (∀ (mag : List ℚ) (v : List ℕ) (l r : List ℚ),
      l.length = v.length → r.length = v.length →
      ∀ j, j + 1 < (repairLoop mag v.length 1 v l r).1.length →
        ¬((repairLoop mag v.length 1 v l r).2.1.getD (j + 1) 0
            = (repairLoop mag v.length 1 v l r).2.1.getD j 0 ∧
          (repairLoop mag v.length 1 v l r).2.2.getD (j + 1) 0
            = (repairLoop mag v.length 1 v l r).2.2.getD j 0)) := by
  constructor
  · intro mag fuel i v l r hiv hl hr
    exact repairLoop_degenerate_step mag fuel i v l r hiv hl hr
  · intro mag v l r hlv hrv
    exact repairLoop_no_degenerate_pairs mag v.length 1 v l r (by omega) le_rfl hlv hrv
      (fun j hj _ => by omega)

/-- Witness for C7: a concrete degenerate pair (equal intersection points,
amplitudes 3 and 1: the later, smaller one is deleted), and a concrete
non-degenerate run whose output still has no degenerate adjacent pair. -/
theorem peak_detector_valley_repair_witness :
    (repairLoop [3, 1] 2 1 [0, 1] [5, 5] [6, 6] =
      repairLoop [3, 1] 1 1
        ([0, 1].eraseIdx (if ([3, 1] : List ℚ).getD (([0, 1] : List ℕ).getD 0 0) 0 <
            ([3, 1] : List ℚ).getD (([0, 1] : List ℕ).getD 1 0) 0 then 0 else 1))
        (([5, 5] : List ℚ).eraseIdx (if ([3, 1] : List ℚ).getD (([0, 1] : List ℕ).getD 0 0) 0 <
            ([3, 1] : List ℚ).getD (([0, 1] : List ℕ).getD 1 0) 0 then 0 else 1))
        (([6, 6] : List ℚ).eraseIdx (if ([3, 1] : List ℚ).getD (([0, 1] : List ℕ).getD 0 0) 0 <
            ([3, 1] : List ℚ).getD (([0, 1] : List ℕ).getD 1 0) 0 then 0 else 1))) ∧
    ¬((repairLoop [3, 1] 2 1 [0, 1] [5, 7] [6, 8]).2.1.getD 1 0
        = (repairLoop [3, 1] 2 1 [0, 1] [5, 7] [6, 8]).2.1.getD 0 0 ∧
      (repairLoop [3, 1] 2 1 [0, 1] [5, 7] [6, 8]).2.2.getD 1 0
        = (repairLoop [3, 1] 2 1 [0, 1] [5, 7] [6, 8]).2.2.getD 0 0) := by
  constructor
  · have := peak_detector_valley_repair.1 [3, 1] 1 1 [0, 1] [5, 5] [6, 6]
      (by decide) (by norm_num [List.getD]) (by norm_num [List.getD])
    simpa [List.getD] using this
  · have := peak_detector_valley_repair.2 [3, 1] [0, 1] [5, 7] [6, 8] rfl rfl 0
    apply this
    norm_num [repairLoop, List.getD]

/-! ### Sign symmetry of the detection

`peak_detector` on a waveform with `twitches_point_up=True` and on its negated
waveform with `twitches_point_up=False` multiplies the same underlying values
into the same `find_peaks` arguments. -/

theorem foldl_max_map_neg (xs : List ℚ) :
    ∀ a : ℚ, (xs.map (fun x => -x)).foldl max (-a) = -(xs.foldl min a) := by
  induction xs with
  | nil => intro a; simp
  | cons y ys ih =>
    intro a
    simp only [List.map_cons, List.foldl_cons, max_neg_neg]
    exact ih (min a y)

theorem listMaxD_map_neg (l : List ℚ) :
    listMaxD (l.map (fun x => -x)) = -(listMinD l) := by
  cases l with
  | nil => simp [listMaxD, listMinD]
  | cons x xs => simpa [listMaxD, listMinD] using foldl_max_map_neg xs x

theorem foldl_min_map_neg (xs : List ℚ) :
    ∀ a : ℚ, (xs.map (fun x => -x)).foldl min (-a) = -(xs.foldl max a) := by
  induction xs with
  | nil => intro a; simp
  | cons y ys ih =>
    intro a
    simp only [List.map_cons, List.foldl_cons, min_neg_neg]
    exact ih (max a y)

theorem listMinD_map_neg (l : List ℚ) :
    listMinD (l.map (fun x => -x)) = -(listMaxD l) := by
  cases l with
  | nil => simp [listMaxD, listMinD]
  | cons x xs => simpa [listMaxD, listMinD] using foldl_min_map_neg xs x

/-- The prominence scale is invariant under negating the signal. -/
theorem max_prominence_map_neg (l : List ℚ) :
    max_prominence (l.map (fun x => -x)) = max_prominence l := by
  rw [max_prominence, max_prominence, listMaxD_map_neg, listMinD_map_neg]
  rw [show -listMinD l - -listMaxD l = -(listMinD l - listMaxD l) by ring]
  rw [abs_neg, abs_sub_comm]

/-- Detection-level symmetry: on the negated signal with the opposite polarity
flag, the peak lists agree unconditionally; the valley lists (and hence the
whole result) agree whenever the valley `find_peaks` result has no degenerate
adjacent pair, since then the amplitude tie-break of the repair loop — the only
place the sign of the raw signal is read after detection — never runs. -/
theorem detectWindow_point_up_symmetry (find_peaks : FindPeaksFn)
    (timeSignal magneticSignal : List ℚ) (start_time : ℚ) (end_time : Option ℚ)
    (prominence_factors width_factors : ℚ × ℚ) :
    (detectWindow find_peaks timeSignal magneticSignal true start_time end_time
        prominence_factors width_factors).1
      = (detectWindow find_peaks timeSignal (magneticSignal.map (fun x => -x)) false
          start_time end_time prominence_factors width_factors).1 ∧
    (noDegenerate (valleySearchResult find_peaks timeSignal magneticSignal
        prominence_factors width_factors) →
      detectWindow find_peaks timeSignal magneticSignal true start_time end_time
          prominence_factors width_factors
        = detectWindow find_peaks timeSignal (magneticSignal.map (fun x => -x)) false
            start_time end_time prominence_factors width_factors) := by
  have epeak : (magneticSignal.map (fun x => -x)).map (fun x => x * (-1 : ℚ))
      = magneticSignal.map (fun x => x * (1 : ℚ)) := by
    rw [List.map_map]
    exact List.map_congr_left (fun a _ => by simp only [Function.comp_apply]; ring)
  have evalley : (magneticSignal.map (fun x => -x)).map (fun x => x * (1 : ℚ))
      = magneticSignal.map (fun x => x * (-1 : ℚ)) := by
    rw [List.map_map]
    exact List.map_congr_left (fun a _ => by simp only [Function.comp_apply]; ring)
  have eprom := max_prominence_map_neg magneticSignal
  constructor
  · simp only [detectWindow, Bool.false_eq_true, if_true, if_false, epeak, evalley, eprom]
    by_cases hcv : windowRequested start_time end_time (timeSignal.getLastD 0) = true
    · rw [if_pos hcv, if_pos hcv]
    · rw [if_neg hcv, if_neg hcv]
  · intro hnd
    have hid1 := repairLoop_id magneticSignal
      (valleySearchResult find_peaks timeSignal magneticSignal
        prominence_factors width_factors).indices.length 1
      (valleySearchResult find_peaks timeSignal magneticSignal
        prominence_factors width_factors).indices
      (valleySearchResult find_peaks timeSignal magneticSignal
        prominence_factors width_factors).leftIps
      (valleySearchResult find_peaks timeSignal magneticSignal
        prominence_factors width_factors).rightIps
      (fun j hj hjlen => hnd j (by omega) hjlen)
    have hid2 := repairLoop_id (magneticSignal.map (fun x => -x))
      (valleySearchResult find_peaks timeSignal magneticSignal
        prominence_factors width_factors).indices.length 1
      (valleySearchResult find_peaks timeSignal magneticSignal
        prominence_factors width_factors).indices
      (valleySearchResult find_peaks timeSignal magneticSignal
        prominence_factors width_factors).leftIps
      (valleySearchResult find_peaks timeSignal magneticSignal
        prominence_factors width_factors).rightIps
      (fun j hj hjlen => hnd j (by omega) hjlen)
    simp only [valleySearchResult] at hid1 hid2
    simp only [detectWindow, Bool.false_eq_true, if_true, if_false, epeak, evalley, eprom,
      hid1, hid2]

/-! ### Concrete instances for evaluating `peak_detector`

`naiveFindPeaks` is a concrete instance of the external extremum-search
collaborator — a plain strict-local-maximum finder (the width, distance and
prominence thresholds are not needed by the example signals below, whose
extrema are unambiguous) with distinct interpolated intersection points.  The
claims refuted below fail because of the repository's own windowing and
polarity code, for *every* collaborator (the amended theorems are quantified
over `find_peaks`); the concrete instance only serves to exhibit the failure on
explicit numbers. -/
def naiveFindPeaks : FindPeaksFn := fun sig _ _ _ =>
  let idxs := (List.range sig.length).filter (fun i =>
    decide (0 < i) && decide (i + 1 < sig.length) &&
      decide (sig.getD (i - 1) 0 < sig.getD i 0) && decide (sig.getD (i + 1) 0 < sig.getD i 0))
  { indices := idxs
    leftIps := idxs.map (fun i => (i : ℚ) - 1 / 2)
    rightIps := idxs.map (fun i => (i : ℚ) + 1 / 2) }

/-- Example time row: five samples, one second (10^6 µs) apart. -/
def tSigC : List ℚ := [0, 1000000, 2000000, 3000000, 4000000]

/-- Example signal row: clean peaks at samples 1 and 3, valley at sample 2. -/
def mSigC : List ℚ := [0, 5, 0, 9, 0]

/-! ### Claim C4: invalid windowing configuration (refuted) -/

/-- **C4, counterexample.**  `peak_detector` called with `end_time = 1 ≤
start_time = 2` does not fail: it resets the end bound and returns a normal,
non-empty detection (`([3], [2])`, the features at times ≥ 2 s). Called with a
negative `start_time = -1` it does not fail either: it clamps the start to 0
and returns the full detection. -/
theorem peak_detector_invalid_window_counterexample :
    peak_detector naiveFindPeaks tSigC mSigC true 2 (some 1) (6, 6) (7, 7) = ([3], [2]) ∧
    peak_detector naiveFindPeaks tSigC mSigC true (-1) (some 4) (6, 6) (7, 7) = ([1, 3], [2]) := by
  constructor <;>
    norm_num [peak_detector, detectWindow, naiveFindPeaks, windowRequested, repairLoop,
      inWindow, tSigC, mSigC, List.range_succ, List.getD, List.getLastD,
      MICRO_TO_BASE_CONVERSION]

/-- **C4, amended.**  `peak_detector` does not validate its window: a negative
`start_time` is silently clamped to 0, and an `end_time` at most the (clamped)
`start_time` is silently reset to `np.inf`, after which detection and windowing
proceed normally; no branch raises. -/
theorem peak_detector_invalid_window_clamps (find_peaks : FindPeaksFn)
    (timeSignal magneticSignal : List ℚ) (twitches_point_up : Bool) (start_time : ℚ)
    (prominence_factors width_factors : ℚ × ℚ) :
    (∀ end_time, start_time < 0 →
      peak_detector find_peaks timeSignal magneticSignal twitches_point_up start_time
          end_time prominence_factors width_factors
        = peak_detector find_peaks timeSignal magneticSignal twitches_point_up 0
            end_time prominence_factors width_factors) ∧
    (∀ end_time : ℚ, end_time ≤ max 0 start_time →
      peak_detector find_peaks timeSignal magneticSignal twitches_point_up start_time
          (some end_time) prominence_factors width_factors
        = detectWindow find_peaks timeSignal magneticSignal twitches_point_up
            (max 0 start_time) none prominence_factors width_factors) := by
  constructor
  · intro end_time hneg
    simp only [peak_detector, max_self, max_eq_left (le_of_lt hneg)]
  · intro end_time he
    simp only [peak_detector]
    rw [if_pos (le_trans (min_le_left _ _) he)]

/-- Witness for the amended C4: concrete calls with a negative start and with
`end_time ≤ start_time`. -/
theorem peak_detector_invalid_window_clamps_witness :
    peak_detector naiveFindPeaks tSigC mSigC true (-1) (some 4) (6, 6) (7, 7)
        = peak_detector naiveFindPeaks tSigC mSigC true 0 (some 4) (6, 6) (7, 7) ∧
    peak_detector naiveFindPeaks tSigC mSigC true 2 (some 1) (6, 6) (7, 7)
        = detectWindow naiveFindPeaks tSigC mSigC true (max 0 2) none (6, 6) (7, 7) :=
  ⟨(peak_detector_invalid_window_clamps naiveFindPeaks tSigC mSigC true (-1) (6, 6) (7, 7)).1
      (some 4) (by norm_num),
   (peak_detector_invalid_window_clamps naiveFindPeaks tSigC mSigC true 2 (6, 6) (7, 7)).2
      1 (by norm_num)⟩

/-! ### Claim C5: windowing containment (refuted at `start_time = end_time`) -/

/-- **C5, counterexample.**  With `start_time = end_time = 1` (a window
allowed by the claim's `start_time ≤ end_time`, with both bounds inside the
recording's 0–4 s range), `peak_detector` resets the end bound to `np.inf`
and returns the peak at sample 3, whose time value 3 s does not lie within
`[1, 1]`. -/
theorem peak_detector_windowing_containment_counterexample :
    peak_detector naiveFindPeaks tSigC mSigC true 1 (some 1) (6, 6) (7, 7) = ([1, 3], [2]) ∧
    ¬(tSigC.getD 3 0 / MICRO_TO_BASE_CONVERSION ≤ 1) := by
  constructor <;>
    norm_num [peak_detector, detectWindow, naiveFindPeaks, windowRequested, repairLoop,
      inWindow, tSigC, mSigC, List.range_succ, List.getD, List.getLastD,
      MICRO_TO_BASE_CONVERSION]

/-- **C5, amended.**  For every waveform and windowing request with
`0 ≤ start_time < end_time` (strict) and `end_time` within the recording's
time range, every peak index and every valley index returned by
`peak_detector` has a time value (converted to seconds) within the closed
interval `[start_time, end_time]`. -/
theorem peak_detector_windowing_containment (find_peaks : FindPeaksFn)
    (timeSignal magneticSignal : List ℚ) (twitches_point_up : Bool)
    (start_time end_time : ℚ) (prominence_factors width_factors : ℚ × ℚ)
    (hs : 0 ≤ start_time) (hse : start_time < end_time)
    (he : end_time ≤ timeSignal.getLastD 0 / MICRO_TO_BASE_CONVERSION) :
    (∀ i ∈ (peak_detector find_peaks timeSignal magneticSignal twitches_point_up
        start_time (some end_time) prominence_factors width_factors).1,
      start_time ≤ timeSignal.getD i 0 / MICRO_TO_BASE_CONVERSION ∧
        timeSignal.getD i 0 / MICRO_TO_BASE_CONVERSION ≤ end_time) ∧
    (∀ i ∈ (peak_detector find_peaks timeSignal magneticSignal twitches_point_up
        start_time (some end_time) prominence_factors width_factors).2,
      start_time ≤ timeSignal.getD i 0 / MICRO_TO_BASE_CONVERSION ∧
        timeSignal.getD i 0 / MICRO_TO_BASE_CONVERSION ≤ end_time) := by
  have hmaxs : max 0 start_time = start_time := max_eq_right hs
  have hmine : min end_time (timeSignal.getLastD 0 / MICRO_TO_BASE_CONVERSION) = end_time :=
    min_eq_left he
  have hmaxpos : 0 < timeSignal.getLastD 0 := by
    have h1 : 0 < timeSignal.getLastD 0 / MICRO_TO_BASE_CONVERSION :=
      lt_of_lt_of_le (lt_of_le_of_lt hs hse) he
    by_contra hle
    push_neg at hle
    have : timeSignal.getLastD 0 / MICRO_TO_BASE_CONVERSION ≤ 0 := by
      apply div_nonpos_of_nonpos_of_nonneg hle
      rw [MICRO_TO_BASE_CONVERSION]
      norm_num
    linarith
  have hwr : windowRequested start_time (some end_time) (timeSignal.getLastD 0) = true := by
    simp only [windowRequested, Bool.or_eq_true, decide_eq_true_eq]
    rcases eq_or_lt_of_le hs with hs0 | hs0
    · right
      have hlt : timeSignal.getLastD 0 / MICRO_TO_BASE_CONVERSION < timeSignal.getLastD 0 := by
        apply div_lt_self hmaxpos
        rw [MICRO_TO_BASE_CONVERSION]
        norm_num
      exact lt_of_le_of_lt he hlt
    · left; exact hs0
  simp only [peak_detector, hmaxs, hmine, detectWindow]
  rw [if_neg (not_le.mpr hse), if_pos hwr]
  constructor <;> intro i hi <;>
  · have := (List.mem_filter.mp hi).2
    simpa [inWindow, Bool.and_eq_true, decide_eq_true_eq] using this

/-- Witness for the amended C5: window `[1, 3]` over the example recording;
the returned peak at sample 3 has time 3 s inside the window. -/
theorem peak_detector_windowing_containment_witness :
    1 ≤ tSigC.getD 3 0 / MICRO_TO_BASE_CONVERSION ∧
      tSigC.getD 3 0 / MICRO_TO_BASE_CONVERSION ≤ 3 :=
  (peak_detector_windowing_containment naiveFindPeaks tSigC mSigC true 1 3 (6, 6) (7, 7)
      (by norm_num) (by norm_num)
      (by norm_num [tSigC, List.getLastD, MICRO_TO_BASE_CONVERSION])).1 3
    (by norm_num [peak_detector, detectWindow, naiveFindPeaks, windowRequested, repairLoop,
      inWindow, tSigC, mSigC, List.range_succ, List.getD, List.getLastD,
      MICRO_TO_BASE_CONVERSION])

/-! ### Claim C6: polarity symmetry (swap refuted; unswapped equality holds) -/

/-- **C6, counterexample.**  On the example waveform and its amplitude-negated
counterpart, `peak_detector(W, up) ` and `peak_detector(W', down)` return the
*same* pair `([1, 3], [2])` — peaks equal peaks and valleys equal valleys, as
the repository's own test asserts — so the claimed equality with the *swapped*
pair fails (the peak and valley lists differ). -/
theorem peak_detector_swap_counterexample :
    peak_detector naiveFindPeaks tSigC mSigC true 0 none (6, 6) (7, 7) = ([1, 3], [2]) ∧
    peak_detector naiveFindPeaks tSigC (mSigC.map (fun x => -x)) false 0 none (6, 6) (7, 7)
      = ([1, 3], [2]) ∧
    peak_detector naiveFindPeaks tSigC mSigC true 0 none (6, 6) (7, 7)
      ≠ Prod.swap (peak_detector naiveFindPeaks tSigC (mSigC.map (fun x => -x)) false 0 none
          (6, 6) (7, 7)) := by
  refine ⟨?_, ?_, ?_⟩ <;>
    norm_num [peak_detector, detectWindow, naiveFindPeaks, windowRequested, repairLoop,
      inWindow, tSigC, mSigC, List.range_succ, List.getD, List.getLastD,
      MICRO_TO_BASE_CONVERSION, Prod.ext_iff]

/-- **C6, amended.**  For every waveform `W` and its amplitude-negated
counterpart `W'`, `peak_detector(W, twitches_point_up=True)` equals
`peak_detector(W', twitches_point_up=False)` *without* swapping: the peak
lists agree unconditionally, and the full results agree whenever the valley
`find_peaks` result has no adjacent degenerate pair (otherwise the repair
loop's amplitude tie-break reads the negated raw signal and may keep a
different valley of such a pair). -/
theorem peak_detector_point_up_symmetry (find_peaks : FindPeaksFn)
    (timeSignal magneticSignal : List ℚ) (start_time : ℚ) (end_time : Option ℚ)
    (prominence_factors width_factors : ℚ × ℚ) :
    (peak_detector find_peaks timeSignal magneticSignal true start_time end_time
        prominence_factors width_factors).1
      = (peak_detector find_peaks timeSignal (magneticSignal.map (fun x => -x)) false
          start_time end_time prominence_factors width_factors).1 ∧
    (noDegenerate (valleySearchResult find_peaks timeSignal magneticSignal
        prominence_factors width_factors) →
      peak_detector find_peaks timeSignal magneticSignal true start_time end_time
          prominence_factors width_factors
        = peak_detector find_peaks timeSignal (magneticSignal.map (fun x => -x)) false
            start_time end_time prominence_factors width_factors) := by
  simp only [peak_detector]
  exact detectWindow_point_up_symmetry find_peaks timeSignal magneticSignal _ _
    prominence_factors width_factors

/-- Witness for the amended C6: on the example waveform the valley search has
a single valley (no degenerate pair), so the two calls agree exactly. -/
theorem peak_detector_point_up_symmetry_witness :
    peak_detector naiveFindPeaks tSigC mSigC true 0 none (6, 6) (7, 7)
      = peak_detector naiveFindPeaks tSigC (mSigC.map (fun x => -x)) false 0 none (6, 6) (7, 7) := by
  apply (peak_detector_point_up_symmetry naiveFindPeaks tSigC mSigC 0 none (6, 6) (7, 7)).2
  intro i hi0 hilen
  have hlen : (valleySearchResult naiveFindPeaks tSigC mSigC (6, 6) (7, 7)).indices.length = 1 := by
    norm_num [valleySearchResult, naiveFindPeaks, tSigC, mSigC, List.range_succ, List.getD]
  omega
